import Mathlib

/-!
Verification development for the OptionsPricer repository.

The analytic pricer (`src/models/black_scholes.py`) is embedded over the
real numbers: the standard normal density and cumulative distribution
function are defined by their integrals, and the two Python functions
`black_scholes_price` and `black_scholes_greeks` are translated line by
line.  Python's `raise ValueError` is modelled by an `Option` result
(`none` = exception surfaced to the caller).  The option kind is kept as
a `String`, exactly as the source compares it.
-/

open MeasureTheory Set

namespace OptionsPricer

/-- Standard normal probability density function. -/
noncomputable def normPdf (t : ℝ) : ℝ :=
  Real.exp (-(t ^ 2) / 2) / Real.sqrt (2 * Real.pi)

/-- Standard normal cumulative distribution function (scipy's `norm.cdf`). -/
noncomputable def normCdf (x : ℝ) : ℝ :=
  ∫ t in Iic x, normPdf t

theorem normPdf_pos (t : ℝ) : 0 < normPdf t := by
  unfold normPdf
  have h2π : 0 < 2 * Real.pi := by positivity
  exact div_pos (Real.exp_pos _) (Real.sqrt_pos.mpr h2π)

theorem normPdf_even (t : ℝ) : normPdf (-t) = normPdf t := by
  unfold normPdf
  rw [neg_pow, neg_one_sq, one_mul]

theorem normPdf_eq (t : ℝ) :
    normPdf t = Real.exp (-(1 / 2) * t ^ 2) / Real.sqrt (2 * Real.pi) := by
  unfold normPdf
  rw [show -(t ^ 2) / 2 = -(1 / 2) * t ^ 2 from by ring]

theorem integrable_normPdf : Integrable normPdf := by
  have h : Integrable (fun t : ℝ => Real.exp (-(1 / 2) * t ^ 2)) :=
    integrable_exp_neg_mul_sq (by norm_num)
  have := h.div_const (Real.sqrt (2 * Real.pi))
  refine this.congr ?_
  filter_upwards with t
  rw [normPdf_eq]

theorem integral_normPdf : ∫ t, normPdf t = 1 := by
  have h : (fun t : ℝ => normPdf t)
      = fun t : ℝ => Real.exp (-(1 / 2) * t ^ 2) / Real.sqrt (2 * Real.pi) := by
    funext t; rw [normPdf_eq]
  rw [h, integral_div, integral_gaussian]
  rw [show Real.pi / (1 / 2) = 2 * Real.pi by ring]
  have : Real.sqrt (2 * Real.pi) ≠ 0 := by positivity
  field_simp

theorem normCdf_nonneg (x : ℝ) : 0 ≤ normCdf x :=
  setIntegral_nonneg measurableSet_Iic fun t _ => (normPdf_pos t).le

theorem normCdf_le_one (x : ℝ) : normCdf x ≤ 1 := by
  have h := setIntegral_le_integral (s := Iic x) integrable_normPdf
    (Filter.Eventually.of_forall fun t => (normPdf_pos t).le)
  calc normCdf x ≤ ∫ t, normPdf t := h
    _ = 1 := integral_normPdf

theorem normCdf_neg (x : ℝ) : normCdf (-x) = ∫ t in Ioi x, normPdf t := by
  unfold normCdf
  have h : (∫ t in Iic (-x), normPdf t) = ∫ t in Iic (-x), normPdf (-t) := by
    refine setIntegral_congr_fun measurableSet_Iic fun t _ => ?_
    rw [normPdf_even]
  rw [h, integral_comp_neg_Iic, neg_neg]

theorem normCdf_add_neg (x : ℝ) : normCdf x + normCdf (-x) = 1 := by
  rw [normCdf_neg]
  unfold normCdf
  rw [intervalIntegral.integral_Iic_add_Ioi integrable_normPdf.integrableOn
    integrable_normPdf.integrableOn, integral_normPdf]

theorem normCdf_zero : normCdf 0 = 1 / 2 := by
  have h := normCdf_add_neg 0
  rw [neg_zero] at h
  linarith

theorem normCdf_strictMono {a b : ℝ} (hab : a < b) : normCdf a < normCdf b := by
  have hdiff : normCdf b - normCdf a = ∫ t in a..b, normPdf t :=
    intervalIntegral.integral_Iic_sub_Iic integrable_normPdf.integrableOn
      integrable_normPdf.integrableOn
  have hpos : 0 < ∫ t in a..b, normPdf t :=
    intervalIntegral.intervalIntegral_pos_of_pos
      (integrable_normPdf.intervalIntegrable) normPdf_pos hab
  linarith

/-- Kind string used by the source (`option_type == "call"`). -/
def callKind : String := "call"

/-- Kind string used by the source (`option_type == "put"`). -/
def putKind : String := "put"

/-- Auxiliary quantity `d1` of `black_scholes_price` (line 22 of
`src/models/black_scholes.py`). -/
noncomputable def bs_d1 (S K T r σ : ℝ) : ℝ :=
  (Real.log (S / K) + (r + 0.5 * σ ^ 2) * T) / (σ * Real.sqrt T)

/-- Auxiliary quantity `d2` of `black_scholes_price` (line 23 of
`src/models/black_scholes.py`). -/
noncomputable def bs_d2 (S K T r σ : ℝ) : ℝ :=
  bs_d1 S K T r σ - σ * Real.sqrt T

/-- Embedding of `black_scholes_price` from `src/models/black_scholes.py`.
A `none` result models the `ValueError` raised for an invalid option type. -/
noncomputable def black_scholes_price (S K T r σ : ℝ) (option_type : String) :
    Option ℝ :=
  if T ≤ 0 then
    some (if option_type = callKind then max 0 (S - K) else max 0 (K - S))
  else if option_type = callKind then
    some (S * normCdf (bs_d1 S K T r σ) -
      K * Real.exp (-r * T) * normCdf (bs_d2 S K T r σ))
  else if option_type = putKind then
    some (K * Real.exp (-r * T) * normCdf (-bs_d2 S K T r σ) -
      S * normCdf (-bs_d1 S K T r σ))
  else none

/-- Result record of `black_scholes_greeks` (the Python dict with keys
Delta, Gamma, Vega, Theta, Rho). -/
structure GreeksResult where
  Delta : ℝ
  Gamma : ℝ
  Vega : ℝ
  Theta : ℝ
  Rho : ℝ

/-- Embedding of `black_scholes_greeks` from `src/models/black_scholes.py`.
Note that the source never raises for an unknown option type: every
comparison is `if option_type == "call" ... else ⟨put behaviour⟩`. -/
noncomputable def black_scholes_greeks (S K T r σ : ℝ) (option_type : String) :
    GreeksResult :=
  if T ≤ 0 then ⟨0, 0, 0, 0, 0⟩
  else
    { Delta := if option_type = callKind then normCdf (bs_d1 S K T r σ)
        else normCdf (bs_d1 S K T r σ) - 1
      Gamma := normPdf (bs_d1 S K T r σ) / (S * σ * Real.sqrt T)
      Vega := S * normPdf (bs_d1 S K T r σ) * Real.sqrt T
      Theta := -S * normPdf (bs_d1 S K T r σ) * σ / (2 * Real.sqrt T) -
        r * K * Real.exp (-r * T) *
          normCdf (if option_type = callKind then bs_d2 S K T r σ
            else -bs_d2 S K T r σ)
      Rho := K * T * Real.exp (-r * T) *
        normCdf (if option_type = callKind then bs_d2 S K T r σ
          else -bs_d2 S K T r σ) }

/-- Kind string used in counterexamples: neither CALL nor PUT. -/
def unknownKind : String := "banana"

theorem max_zero_sub_max_zero (x : ℝ) : max 0 x - max 0 (-x) = x := by
  rcases le_total x 0 with h | h
  · rw [max_eq_left h, max_eq_right (by linarith)]
    ring
  · rw [max_eq_right h, max_eq_left (by linarith)]
    ring

/-- C2: for `T ≤ 0` the price is exactly the intrinsic value — `max 0 (S-K)`
for a call, `max 0 (K-S)` for a put — with no volatility term. -/
theorem C2_zero_time_boundary (S K T r σ : ℝ) (hT : T ≤ 0) :
    black_scholes_price S K T r σ callKind = some (max 0 (S - K)) ∧
    black_scholes_price S K T r σ putKind = some (max 0 (K - S)) := by
  constructor <;> simp [black_scholes_price, hT, callKind, putKind]

/-- C2 witness: `price(150,160,T=0,CALL) = 0` and `price(170,160,T=0,CALL) = 10`. -/
theorem C2_zero_time_boundary_witness :
    black_scholes_price 150 160 0 0 0.25 callKind = some 0 ∧
    black_scholes_price 170 160 0 0 0.25 callKind = some 10 := by
  constructor
  · rw [(C2_zero_time_boundary 150 160 0 0 0.25 le_rfl).1]
    norm_num [max_def]
  · rw [(C2_zero_time_boundary 170 160 0 0 0.25 le_rfl).1]
    norm_num [max_def]

/-- C1 counterexample: the claim quantifies over every `T` including `T ≤ 0`,
but at `spot = strike = 1`, `T = -1`, `rate = 1`, `vol = 1` both prices are the
intrinsic value `0`, so `callPrice - putPrice = 0`, while
`spot - strike·e^(-rate·T) = 1 - e¹ ≠ 0`. -/
theorem C1_parity_counterexample :
    black_scholes_price 1 1 (-1) 1 1 callKind = some 0 ∧
    black_scholes_price 1 1 (-1) 1 1 putKind = some 0 ∧
    ¬((0 : ℝ) - 0 = 1 - 1 * Real.exp (-1 * (-1))) := by
  refine ⟨?_, ?_, ?_⟩
  · simp [black_scholes_price, callKind]
  · simp [black_scholes_price, callKind, putKind]
  · have h := Real.exp_one_gt_d9
    intro hc
    norm_num at hc
    linarith

/-- C1 (amended): put-call parity holds for every `T ≥ 0` (for `T < 0` the
prices collapse to intrinsic values whose difference is `spot - strike`,
which differs from `spot - strike·e^(-rate·T)` whenever `rate·T ≠ 0`): for
identical `(spot, strike, T, rate, vol)` with positive spot, strike and vol,
`callPrice - putPrice = spot - strike·e^(-rate·T)` exactly. -/
theorem C1_put_call_parity (S K T r σ : ℝ) (hS : 0 < S) (hK : 0 < K)
    (hσ : 0 < σ) (hT : 0 ≤ T) :
    ∃ c p, black_scholes_price S K T r σ callKind = some c ∧
      black_scholes_price S K T r σ putKind = some p ∧
      c - p = S - K * Real.exp (-r * T) := by
  rcases le_or_lt T 0 with h | h
  · have hT0 : T = 0 := le_antisymm h hT
    subst hT0
    refine ⟨max 0 (S - K), max 0 (K - S), ?_, ?_, ?_⟩
    · simp [black_scholes_price, callKind]
    · simp [black_scholes_price, callKind, putKind]
    · rw [show K - S = -(S - K) from by ring, max_zero_sub_max_zero,
        mul_zero, Real.exp_zero, mul_one]
  · have hnle : ¬T ≤ 0 := not_le.mpr h
    refine ⟨S * normCdf (bs_d1 S K T r σ) -
        K * Real.exp (-r * T) * normCdf (bs_d2 S K T r σ),
      K * Real.exp (-r * T) * normCdf (-bs_d2 S K T r σ) -
        S * normCdf (-bs_d1 S K T r σ), ?_, ?_, ?_⟩
    · simp [black_scholes_price, hnle, callKind]
    · simp [black_scholes_price, hnle, callKind, putKind]
    · have h1 := normCdf_add_neg (bs_d1 S K T r σ)
      have h2 := normCdf_add_neg (bs_d2 S K T r σ)
      linear_combination S * h1 - K * Real.exp (-r * T) * h2

/-- C1 witness: amended parity instantiated at
`spot = 2, strike = 1, T = 0, rate = 3, vol = 1`. -/
theorem C1_put_call_parity_witness :
    (0 : ℝ) < 2 ∧ (0 : ℝ) < 1 ∧ (0 : ℝ) < 1 ∧ (0 : ℝ) ≤ 0 ∧
    (∃ c p, black_scholes_price 2 1 0 3 1 callKind = some c ∧
      black_scholes_price 2 1 0 3 1 putKind = some p ∧
      c - p = 2 - 1 * Real.exp (-3 * 0)) :=
  ⟨by norm_num, by norm_num, by norm_num, le_rfl,
    C1_put_call_parity 2 1 0 3 1 (by norm_num) (by norm_num) (by norm_num) le_rfl⟩

/-- C3: the claim is right and the code wrong. At
`spot = strike = 100, T = 1, rate = 0, vol = 0` the guard `T ≤ 0` is false, so
the source computes `d1 = (log(S/K) + (r + 0.5·vol²)·T) / (vol·√T)`, whose
divisor `vol·√T` is `0` and whose dividend is `0` as well — in Python this is
`0.0/0.0 = NaN`, which propagates through `norm.cdf` and is returned.  There
is no zero-volatility special case and no `DomainError`: the function still
returns a value through the generic formula branch. -/
theorem C3_zero_vol_unhandled :
    ¬((1 : ℝ) ≤ 0) ∧
    (0 : ℝ) * Real.sqrt 1 = 0 ∧
    Real.log ((100 : ℝ) / 100) + ((0 : ℝ) + 0.5 * 0 ^ 2) * 1 = 0 ∧
    black_scholes_price 100 100 1 0 0 callKind =
      some (100 * normCdf (bs_d1 100 100 1 0 0) -
        100 * Real.exp (-0 * 1) * normCdf (bs_d2 100 100 1 0 0)) := by
  refine ⟨by norm_num, by simp, ?_, ?_⟩
  · norm_num [Real.log_one]
  · simp [black_scholes_price, callKind]

/-- C4: Greeks sign invariants — for every kind string `Gamma ≥ 0` and
`Vega ≥ 0`; CALL `Delta ∈ [0,1]`; PUT `Delta ∈ [-1,0]`; this covers both the
`T ≤ 0` all-zero early exit and the `T > 0` formulas. -/
theorem C4_greeks_signs (S K T r σ : ℝ) (ot : String) (hS : 0 < S)
    (hK : 0 < K) (hσ : 0 < σ) (hT : 0 ≤ T) :
    0 ≤ (black_scholes_greeks S K T r σ ot).Gamma ∧
    0 ≤ (black_scholes_greeks S K T r σ ot).Vega ∧
    (0 ≤ (black_scholes_greeks S K T r σ callKind).Delta ∧
      (black_scholes_greeks S K T r σ callKind).Delta ≤ 1) ∧
    (-1 ≤ (black_scholes_greeks S K T r σ putKind).Delta ∧
      (black_scholes_greeks S K T r σ putKind).Delta ≤ 0) := by
  rcases le_or_lt T 0 with h | h
  · simp [black_scholes_greeks, h]
  · have hnle : ¬T ≤ 0 := not_le.mpr h
    have hsT : 0 < Real.sqrt T := Real.sqrt_pos.mpr h
    have hd1l := normCdf_nonneg (bs_d1 S K T r σ)
    have hd1u := normCdf_le_one (bs_d1 S K T r σ)
    refine ⟨?_, ?_, ?_, ?_⟩
    · simp only [black_scholes_greeks, if_neg hnle]
      exact div_nonneg (normPdf_pos _).le (by positivity)
    · simp only [black_scholes_greeks, if_neg hnle]
      have := (normPdf_pos (bs_d1 S K T r σ)).le
      positivity
    · simp only [black_scholes_greeks, if_neg hnle, callKind, if_pos rfl]
      exact ⟨hd1l, hd1u⟩
    · have hne : putKind ≠ callKind := by decide
      simp only [black_scholes_greeks, if_neg hnle, if_neg hne]
      constructor <;> linarith

/-- C4 witness: Greeks sign invariants at
`spot = 1, strike = 1, T = 0, rate = 0, vol = 1`, kind `"banana"`. -/
theorem C4_greeks_signs_witness :
    (0 : ℝ) < 1 ∧ (0 : ℝ) ≤ 0 ∧
    (0 ≤ (black_scholes_greeks 1 1 0 0 1 unknownKind).Gamma ∧
      0 ≤ (black_scholes_greeks 1 1 0 0 1 unknownKind).Vega ∧
      (0 ≤ (black_scholes_greeks 1 1 0 0 1 callKind).Delta ∧
        (black_scholes_greeks 1 1 0 0 1 callKind).Delta ≤ 1) ∧
      (-1 ≤ (black_scholes_greeks 1 1 0 0 1 putKind).Delta ∧
        (black_scholes_greeks 1 1 0 0 1 putKind).Delta ≤ 0)) :=
  ⟨by norm_num, le_rfl,
    C4_greeks_signs 1 1 0 0 1 unknownKind (by norm_num) (by norm_num)
      (by norm_num) le_rfl⟩

/-- C5 counterexample: for the invalid kind `"banana"` with `T = 0` the
price function does not fail — it silently returns the PUT intrinsic value
`max 0 (160-150) = 10` — and the greeks function returns exactly the PUT
greeks (it has no error path at all). -/
theorem C5_invalid_kind_counterexample :
    black_scholes_price 150 160 0 0 0.25 unknownKind = some 10 ∧
    black_scholes_greeks 100 100 1 0 1 unknownKind =
      black_scholes_greeks 100 100 1 0 1 putKind := by
  constructor
  · have hne : unknownKind ≠ callKind := by decide
    simp [black_scholes_price, hne]
    norm_num [max_def]
  · have hne : unknownKind ≠ callKind := by decide
    have hne' : putKind ≠ callKind := by decide
    simp [black_scholes_greeks, hne, hne']

/-- C5 (amended): an invalid option kind is surfaced as an error only on the
`T > 0` path of `black_scholes_price`; on the `T ≤ 0` path every kind other
than `"call"` (invalid kinds included) silently gets the PUT intrinsic value,
and `black_scholes_greeks` never fails, treating every kind other than
`"call"` exactly as PUT. -/
theorem C5_invalid_kind (S K T r σ : ℝ) (ot : String) (hc : ot ≠ callKind)
    (hp : ot ≠ putKind) :
    (0 < T → black_scholes_price S K T r σ ot = none) ∧
    (T ≤ 0 → black_scholes_price S K T r σ ot = some (max 0 (K - S))) ∧
    black_scholes_greeks S K T r σ ot = black_scholes_greeks S K T r σ putKind := by
  have hne' : putKind ≠ callKind := by decide
  refine ⟨fun h => ?_, fun h => ?_, ?_⟩
  · simp [black_scholes_price, not_le.mpr h, hc, hp]
  · simp [black_scholes_price, h, hc]
  · simp [black_scholes_greeks, hc, hne']

/-- C5 witness: amended statement instantiated at kind `"banana"`,
`spot = 1, strike = 2, T = 1, rate = 0, vol = 1`. -/
theorem C5_invalid_kind_witness :
    unknownKind ≠ callKind ∧ unknownKind ≠ putKind ∧
    ((0 < (1 : ℝ) → black_scholes_price 1 2 1 0 1 unknownKind = none) ∧
      ((1 : ℝ) ≤ 0 → black_scholes_price 1 2 1 0 1 unknownKind = some (max 0 (2 - 1))) ∧
      black_scholes_greeks 1 2 1 0 1 unknownKind =
        black_scholes_greeks 1 2 1 0 1 putKind) :=
  ⟨by decide, by decide,
    C5_invalid_kind 1 2 1 0 1 unknownKind (by decide) (by decide)⟩

/-!
Embedding of `interpolate_volatility_surface`
(`src/ui/visualizations/volatility_surface.py`, lines 8–95).

Quotes carry rational strikes and implied vols and integer day counts (the
source works on float64/int; the claims are structural, so the exact ordered
subfield ℚ is used, which keeps every definition computable).  The source
reads the wall clock (`datetime.now()`); the clock reading is surfaced as the
explicit `today` parameter, and each expiration-date dict key is its absolute
day number `expiry`, so that `days = expiry - today` mirrors
`(expiry - today).days`.  Python's dict is an insertion-ordered association
list with in-place value update; `np.nan` filtering is `0 < iv` (a rational is
never NaN).  `none` models the `ValueError` Python's `min()` raises on an
empty sequence (no future expiration, or no surviving strike).
-/

/-- One options-table row; the engine consumes `strike` and `impliedVolatility`. -/
structure OptRow where
  strike : ℚ
  impliedVol : ℚ

/-- One expiration entry of the `options_data` dict: absolute expiry day
number plus the call and put tables. -/
structure ExpEntry where
  expiry : ℤ
  calls : List OptRow
  puts : List OptRow

/-- Row filter of the source loop: skip when a strike range is supplied and
the strike is outside it, keep only `iv > 0` (line 49 and 52). -/
def rowValid (rng : Option (ℚ × ℚ)) (row : OptRow) : Bool :=
  (match rng with
   | none => true
   | some (lo, hi) => !(decide (row.strike < lo) || decide (hi < row.strike))) &&
  decide (0 < row.impliedVol)

/-- Python dict assignment `iv_data[(days, strike)] = iv`: update the value at
an existing key in place, otherwise append at the end. -/
def dictInsert : List ((ℤ × ℚ) × ℚ) → (ℤ × ℚ) → ℚ → List ((ℤ × ℚ) × ℚ)
  | [], k, v => [(k, v)]
  | kv :: rest, k, v =>
    if kv.1 = k then (k, v) :: rest else kv :: dictInsert rest k v

/-- Python dict lookup `iv_data[(d, s)]` / membership `(d, s) in iv_data`. -/
def lookupIV (m : List ((ℤ × ℚ) × ℚ)) (k : ℤ × ℚ) : Option ℚ :=
  (m.find? (fun kv => decide (kv.1 = k))).map (fun kv => kv.2)

/-- Inner-loop body for one row (lines 44–54). -/
def insertRow (rng : Option (ℚ × ℚ)) (days : ℤ)
    (m : List ((ℤ × ℚ) × ℚ)) (row : OptRow) : List ((ℤ × ℚ) × ℚ) :=
  if rowValid rng row then dictInsert m (days, row.strike) row.impliedVol else m

/-- Contribution of one expiration to `iv_data`: skipped entirely when
`days ≤ 0`, otherwise calls are iterated before puts (line 43). -/
def insertExp (rng : Option (ℚ × ℚ)) (today : ℤ)
    (m : List ((ℤ × ℚ) × ℚ)) (e : ExpEntry) : List ((ℤ × ℚ) × ℚ) :=
  if e.expiry - today ≤ 0 then m
  else (e.calls ++ e.puts).foldl (insertRow rng (e.expiry - today)) m

/-- The `iv_data` dictionary after the extraction loop (lines 30–54). -/
def ivData (data : List ExpEntry) (rng : Option (ℚ × ℚ)) (today : ℤ) :
    List ((ℤ × ℚ) × ℚ) :=
  data.foldl (insertExp rng today) []

/-- The `all_days` list: one entry per future expiration, in input order
(appended before any row of the expiration is examined — line 36). -/
def allDays (data : List ExpEntry) (today : ℤ) : List ℤ :=
  (data.map (fun e => e.expiry - today)).filter (fun d => decide (0 < d))

/-- Embedding of `sorted(all_days)` (line 57). -/
def allDaysSorted (data : List ExpEntry) (today : ℤ) : List ℤ :=
  List.insertionSort (fun a b => a ≤ b) (allDays data today)

/-- Contents of the `all_strikes` set in first-insertion order (lines 43–53):
strikes of valid rows of future expirations. -/
def strikeList (data : List ExpEntry) (rng : Option (ℚ × ℚ)) (today : ℤ) :
    List ℚ :=
  data.foldl (fun acc e =>
    if e.expiry - today ≤ 0 then acc
    else acc ++ ((e.calls ++ e.puts).filter (rowValid rng)).map OptRow.strike) []

/-- Embedding of `sorted(all_strikes)` (line 58): distinct observed strikes, increasing. -/
def allStrikesSorted (data : List ExpEntry) (rng : Option (ℚ × ℚ)) (today : ℤ) :
    List ℚ :=
  List.insertionSort (fun a b => a ≤ b) (strikeList data rng today).dedup

/-- Python `min` over a nonempty numeric list. -/
def listMin (xs : List ℤ) : ℤ :=
  match xs with
  | [] => 0
  | h :: t => t.foldl min h

/-- Python `max` over a nonempty numeric list. -/
def listMax (xs : List ℤ) : ℤ :=
  match xs with
  | [] => 0
  | h :: t => t.foldl max h

/-- Python `min` over a nonempty list of rationals. -/
def listMinQ (xs : List ℚ) : ℚ :=
  match xs with
  | [] => 0
  | h :: t => t.foldl min h

/-- Python `max` over a nonempty list of rationals. -/
def listMaxQ (xs : List ℚ) : ℚ :=
  match xs with
  | [] => 0
  | h :: t => t.foldl max h

/-- Embedding of `np.linspace lo hi n`: `n` evenly spaced samples, endpoints included
(numpy returns `[lo]` for `n = 1`). -/
def linspace (lo hi : ℚ) (n : ℕ) : List ℚ :=
  (List.range n).map (fun i : ℕ =>
    if n ≤ 1 then lo else lo + (hi - lo) * (i : ℚ) / ((n : ℚ) - 1))

/-- Python's `min(candidates, key=lambda x: abs(x - target))`: the first
element minimising the absolute difference (`List.argmin` picks the earliest
minimiser, exactly like Python's `min`). -/
def nearestTo (xs : List ℚ) (target : ℚ) : ℚ :=
  (xs.argmin (fun x => |x - target|)).getD 0

/-- The nearest observed day (`closest_day`, line 77); days are ints, the
grid coordinate is not. -/
def nearestDay (ds : List ℤ) (target : ℚ) : ℤ :=
  (List.argmin (fun x : ℤ => |(x : ℚ) - target|) ds).getD 0

/-- The quotes sharing a given day (`k[0] == closest_day`, line 90). -/
def dayGroup (iv : List ((ℤ × ℚ) × ℚ)) (d : ℤ) : List ((ℤ × ℚ) × ℚ) :=
  iv.filter (fun kv => decide (kv.1.1 = d))

/-- Embedding of `np.mean([v for k, v in iv_data.items() if k[0] == closest_day])`. -/
def dayMean (iv : List ((ℤ × ℚ) × ℚ)) (d : ℤ) : ℚ :=
  ((dayGroup iv d).map (fun kv => kv.2)).sum / ((dayGroup iv d).length : ℚ)

/-- The per-node rule (lines 74–90): direct quote at the nearest observed
`(day, strike)`, else the quote at `(nearest day, ATM strike)`, else the
arithmetic mean of the quotes sharing the nearest day. -/
def nodeValue (iv : List ((ℤ × ℚ) × ℚ)) (days : List ℤ) (strikes : List ℚ)
    (current : ℚ) (d s : ℚ) : ℚ :=
  match lookupIV iv (nearestDay days d, nearestTo strikes s) with
  | some v => v
  | none =>
    match lookupIV iv (nearestDay days d, nearestTo strikes current) with
    | some v => v
    | none => dayMean iv (nearestDay days d)

/-- Embedding of `interpolate_volatility_surface`.  Returns the pair of grid
axes and the surface, `surface[i][j]` being the node value at
`(days[i], strikes[j])` (the source's final `meshgrid`/transpose packaging
for plotting is presentation only and is not modelled).  `none` models the
`ValueError` Python's `min()` raises when there is no future expiration or
no surviving strike. -/
def interpolate_volatility_surface (data : List ExpEntry) (current : ℚ)
    (rng : Option (ℚ × ℚ)) (today : ℤ) :
    Option (List ℚ × List ℚ × List (List ℚ)) :=
  let days0 := allDaysSorted data today
  let strikes0 := allStrikesSorted data rng today
  let iv := ivData data rng today
  if days0 = [] ∨ strikes0 = [] then none
  else
    let sr := match rng with
      | some r => r
      | none => (listMinQ strikes0, listMaxQ strikes0)
    let dayPoints := min 50 (days0.length * 5)
    let strikes := linspace sr.1 sr.2 50
    let days := linspace (listMin days0 : ℤ) (listMax days0 : ℤ) dayPoints
    some (days, strikes,
      days.map (fun d => strikes.map (fun s => nodeValue iv days0 strikes0 current d s)))

theorem nearestDay_mem (ds : List ℤ) (t : ℚ) (h : ds ≠ []) :
    nearestDay ds t ∈ ds := by
  unfold nearestDay
  rcases ha : List.argmin (fun x : ℤ => |(x : ℚ) - t|) ds with _ | m
  · exact absurd (List.argmin_eq_none.mp ha) h
  · exact List.argmin_mem ha

theorem lookupIV_eq_some_of_mem {m : List ((ℤ × ℚ) × ℚ)} {k : ℤ × ℚ} {v : ℚ}
    (nd : (m.map Prod.fst).Nodup) (hm : (k, v) ∈ m) : lookupIV m k = some v := by
  induction m with
  | nil => simp at hm
  | cons kv rest ih =>
    rw [List.map_cons, List.nodup_cons] at nd
    rcases List.mem_cons.mp hm with h | h
    · rw [← h]
      unfold lookupIV
      rw [List.find?_cons_of_pos _ (by simp)]
      rfl
    · have hk : ¬kv.1 = k := by
        intro he
        exact nd.1 (he ▸ List.mem_map_of_mem Prod.fst h)
      unfold lookupIV
      rw [List.find?_cons_of_neg _ (by simpa using hk)]
      exact ih nd.2 h

theorem mem_of_lookupIV {m : List ((ℤ × ℚ) × ℚ)} {k : ℤ × ℚ} {v : ℚ}
    (h : lookupIV m k = some v) : (k, v) ∈ m := by
  unfold lookupIV at h
  rcases hf : m.find? (fun kv => decide (kv.1 = k)) with _ | kv
  · rw [hf] at h; simp at h
  · rw [hf] at h
    have h2 : kv.2 = v := by simpa using h
    have hk : kv.1 = k := by simpa using List.find?_some hf
    have : kv = (k, v) := Prod.ext hk h2
    exact this ▸ List.mem_of_find?_eq_some hf

theorem lookupIV_eq_none_iff {m : List ((ℤ × ℚ) × ℚ)} {k : ℤ × ℚ} :
    lookupIV m k = none ↔ ∀ kv ∈ m, kv.1 ≠ k := by
  unfold lookupIV
  rw [Option.map_eq_none', List.find?_eq_none]
  simp

theorem lookupIV_eq_of_perm {m1 m2 : List ((ℤ × ℚ) × ℚ)} (h : m1.Perm m2)
    (nd : (m1.map Prod.fst).Nodup) (k : ℤ × ℚ) : lookupIV m1 k = lookupIV m2 k := by
  have nd2 : (m2.map Prod.fst).Nodup := (h.map Prod.fst).nodup_iff.mp nd
  rcases h1 : lookupIV m1 k with _ | v
  · rw [lookupIV_eq_none_iff] at h1
    exact (lookupIV_eq_none_iff.mpr fun kv hkv => h1 kv (h.mem_iff.mpr hkv)).symm
  · exact (lookupIV_eq_some_of_mem nd2 (h.subset (mem_of_lookupIV h1))).symm

theorem dayMean_eq_of_perm {m1 m2 : List ((ℤ × ℚ) × ℚ)} (h : m1.Perm m2)
    (d : ℤ) : dayMean m1 d = dayMean m2 d := by
  unfold dayMean dayGroup
  have hp := h.filter (fun kv => decide (kv.1.1 = d))
  rw [(hp.map (fun kv => kv.2)).sum_eq, hp.length_eq]

theorem nodeValue_eq_of_perm {m1 m2 : List ((ℤ × ℚ) × ℚ)} (h : m1.Perm m2)
    (nd : (m1.map Prod.fst).Nodup) (days : List ℤ) (strikes : List ℚ)
    (current d s : ℚ) :
    nodeValue m1 days strikes current d s = nodeValue m2 days strikes current d s := by
  unfold nodeValue
  rw [lookupIV_eq_of_perm h nd, lookupIV_eq_of_perm h nd,
    dayMean_eq_of_perm h]

/-- Example input for the surface counterexamples: a single future
expiration (absolute day 10) with one valid call quote. -/
def oneQuoteData : List ExpEntry := [⟨10, [⟨100, 1⟩], []⟩]

/-- C6 counterexample: for a single-expiration quote collection the day axis
of the output grid has `min(50, 1·5) = 5` sample points, not the fixed 50×50
resolution the claim states (the day-axis range is likewise derived from the
observed days, not from a caller-supplied day range — no such parameter
exists in the source). -/
theorem C6_resolution_counterexample :
    (interpolate_volatility_surface oneQuoteData 100 (some (90, 110)) 0).map
      (fun x => x.1.length) = some 5 ∧ (5 : ℕ) ≠ 50 :=
  ⟨by decide, by decide⟩

/-- C6 (amended): for every collection with at least one future expiration
and at least one surviving strike, the day axis is the linear partition of
`[min observed day, max observed day]` into `min(50, 5·number-of-future-
expirations)` points, the strike axis is the linear partition of the
caller-supplied strike range into 50 points, and every grid node `(d, s)`
carries the nearest-neighbour value: the direct quote at (nearest observed
day, nearest observed strike), else the quote at (nearest day, strike
nearest the current spot), else the arithmetic mean of the quotes sharing
the nearest day — nearest always by absolute difference with ties broken
towards the earlier (smaller) candidate. -/
theorem C6_grid_structure (data : List ExpEntry) (current lo hi : ℚ) (today : ℤ)
    (hd : allDaysSorted data today ≠ [])
    (hs : allStrikesSorted data (some (lo, hi)) today ≠ []) :
    ∃ days strikes grid,
      interpolate_volatility_surface data current (some (lo, hi)) today =
        some (days, strikes, grid) ∧
      days = linspace ((listMin (allDaysSorted data today) : ℤ) : ℚ)
        ((listMax (allDaysSorted data today) : ℤ) : ℚ)
        (min 50 ((allDaysSorted data today).length * 5)) ∧
      strikes = linspace lo hi 50 ∧
      days.length = min 50 ((allDaysSorted data today).length * 5) ∧
      strikes.length = 50 ∧
      grid = days.map (fun d => strikes.map (fun s =>
        nodeValue (ivData data (some (lo, hi)) today) (allDaysSorted data today)
          (allStrikesSorted data (some (lo, hi)) today) current d s)) := by
  have hc : ¬(allDaysSorted data today = [] ∨
      allStrikesSorted data (some (lo, hi)) today = []) := not_or.mpr ⟨hd, hs⟩
  have hlen : ∀ (a b : ℚ) (n : ℕ), (linspace a b n).length = n := by
    intro a b n
    unfold linspace
    rw [List.length_map, List.length_range]
  refine ⟨_, _, _, ?_, rfl, rfl, hlen _ _ _, hlen _ _ _, rfl⟩
  unfold interpolate_volatility_surface
  rw [if_neg hc]

/-- C6 witness: the amended grid structure instantiated on the one-quote
collection with strike range `[90, 110]`. -/
theorem C6_grid_structure_witness :
    allDaysSorted oneQuoteData 0 ≠ [] ∧
    allStrikesSorted oneQuoteData (some (90, 110)) 0 ≠ [] ∧
    (∃ days strikes grid,
      interpolate_volatility_surface oneQuoteData 100 (some (90, 110)) 0 =
        some (days, strikes, grid) ∧
      days = linspace ((listMin (allDaysSorted oneQuoteData 0) : ℤ) : ℚ)
        ((listMax (allDaysSorted oneQuoteData 0) : ℤ) : ℚ)
        (min 50 ((allDaysSorted oneQuoteData 0).length * 5)) ∧
      strikes = linspace 90 110 50 ∧
      days.length = min 50 ((allDaysSorted oneQuoteData 0).length * 5) ∧
      strikes.length = 50 ∧
      grid = days.map (fun d => strikes.map (fun s =>
        nodeValue (ivData oneQuoteData (some (90, 110)) 0) (allDaysSorted oneQuoteData 0)
          (allStrikesSorted oneQuoteData (some (90, 110)) 0) 100 d s))) :=
  ⟨by decide, by decide,
    C6_grid_structure oneQuoteData 100 90 110 0 (by decide) (by decide)⟩

/-- Quote collection with two future expirations used by C7: days 10 and 20
relative to clock reading 0. -/
def reorderData1 : List ExpEntry :=
  [⟨10, [⟨100, 1⟩], []⟩, ⟨20, [⟨110, 2⟩], []⟩]

/-- The same quote content as `reorderData1`, expirations listed in the
opposite order. -/
def reorderData2 : List ExpEntry :=
  [⟨20, [⟨110, 2⟩], []⟩, ⟨10, [⟨100, 1⟩], []⟩]

/-- C7 counterexample: the builder reads the wall clock — rebuilding from the
same immutable quote collection, the same current price and the same strike
range at a clock reading 15 days later yields a different grid (the day axis
drops from 10 to 5 sample points once the first expiration lies in the
past), so the output is not a function of the explicit inputs alone. -/
theorem C7_clock_counterexample :
    interpolate_volatility_surface reorderData1 100 none 0 ≠
      interpolate_volatility_surface reorderData1 100 none 15 :=
  fun h => absurd (congrArg (Option.map (fun x => x.1.length)) h) (by decide)

/-- C7 (amended): the builder depends on the wall-clock day in addition to
its explicit inputs.  Once the clock reading is fixed, the output is
determined by the abstract quote content alone: two collections giving the
same sorted day list, the same sorted strike list and the same `iv_data`
entries up to reordering (with distinct keys) produce identical grids, so
there is no hidden iteration-order dependence. -/
theorem C7_content_determinism (data1 data2 : List ExpEntry) (current : ℚ)
    (rng : Option (ℚ × ℚ)) (today : ℤ)
    (hd : allDaysSorted data1 today = allDaysSorted data2 today)
    (hs : allStrikesSorted data1 rng today = allStrikesSorted data2 rng today)
    (hiv : (ivData data1 rng today).Perm (ivData data2 rng today))
    (hnd : ((ivData data1 rng today).map Prod.fst).Nodup) :
    interpolate_volatility_surface data1 current rng today =
      interpolate_volatility_surface data2 current rng today := by
  unfold interpolate_volatility_surface
  rw [hd, hs]
  rcases em (allDaysSorted data2 today = [] ∨ allStrikesSorted data2 rng today = [])
    with h | h
  · rw [if_pos h, if_pos h]
  · rw [if_neg h, if_neg h]
    refine congrArg some (congrArg (Prod.mk _) (congrArg (Prod.mk _) ?_))
    refine List.map_congr_left fun d _ => List.map_congr_left fun s _ => ?_
    exact nodeValue_eq_of_perm hiv hnd _ _ current d s

/-- C7 witness: content determinism applied to two genuinely reordered
collections carrying the same quotes. -/
theorem C7_content_determinism_witness :
    allDaysSorted reorderData1 0 = allDaysSorted reorderData2 0 ∧
    allStrikesSorted reorderData1 none 0 = allStrikesSorted reorderData2 none 0 ∧
    (ivData reorderData1 none 0).Perm (ivData reorderData2 none 0) ∧
    ((ivData reorderData1 none 0).map Prod.fst).Nodup ∧
    interpolate_volatility_surface reorderData1 100 none 0 =
      interpolate_volatility_surface reorderData2 100 none 0 := by
  refine ⟨by decide, by decide, by decide, by decide, ?_⟩
  exact C7_content_determinism reorderData1 reorderData2 100 none 0
    (by decide) (by decide) (by decide) (by decide)

/-- Quote collection for the C8 counterexample: the day-20 expiration's only
quote (strike 300) is filtered out by the strike range `[90, 110]`, yet day
20 was already appended to `all_days` before its rows were examined. -/
def emptyDayData : List ExpEntry :=
  [⟨10, [⟨100, 1⟩], []⟩, ⟨20, [⟨300, 2⟩], []⟩]

/-- C8 counterexample: on `emptyDayData` the grid's day axis ends at the
coordinate 20, whose nearest observed day is 20 itself; both the direct and
the ATM lookup miss, and the day-20 group of `iv_data` is empty — the final
fallback computes the mean of an empty collection (`np.mean([])`, a NaN, in
the source), refuting the claimed invariant. -/
theorem C8_empty_group_counterexample :
    (interpolate_volatility_surface emptyDayData 100 (some (90, 110)) 0).map
      (fun x => x.1.getLast?) = some (some 20) ∧
    nearestDay (allDaysSorted emptyDayData 0) 20 = 20 ∧
    lookupIV (ivData emptyDayData (some (90, 110)) 0)
      (20, nearestTo (allStrikesSorted emptyDayData (some (90, 110)) 0) 90) = none ∧
    lookupIV (ivData emptyDayData (some (90, 110)) 0)
      (20, nearestTo (allStrikesSorted emptyDayData (some (90, 110)) 0) 100) = none ∧
    dayGroup (ivData emptyDayData (some (90, 110)) 0) 20 = [] := by
  refine ⟨?_, ?_, by decide, by decide, by decide⟩
  · have h1 : allDaysSorted emptyDayData 0 = [10, 20] := by decide
    unfold interpolate_volatility_surface
    rw [if_neg (by decide)]
    simp only [Option.map_some', h1]
    norm_num [linspace, List.range_succ, listMin, listMax]
  · have h1 : allDaysSorted emptyDayData 0 = [10, 20] := by decide
    rw [h1]
    norm_num [nearestDay, List.argmin, List.argAux]

/-- C8 (amended): whenever every observed day of the sorted day list owns at
least one quote in `iv_data` (true exactly when no future expiration has all
its quotes filtered out), the day group of the nearest observed day of any
grid coordinate is non-empty, so the mean fallback never runs over an empty
collection. -/
theorem C8_day_group_nonempty (data : List ExpEntry) (rng : Option (ℚ × ℚ))
    (today : ℤ) (hne : allDaysSorted data today ≠ [])
    (hall : ∀ d ∈ allDaysSorted data today,
      dayGroup (ivData data rng today) d ≠ []) :
    ∀ dq : ℚ, dayGroup (ivData data rng today)
      (nearestDay (allDaysSorted data today) dq) ≠ [] :=
  fun dq => hall _ (nearestDay_mem _ dq hne)

/-- C8 witness: the amended statement on the one-quote collection. -/
theorem C8_day_group_nonempty_witness :
    allDaysSorted oneQuoteData 0 ≠ [] ∧
    (∀ d ∈ allDaysSorted oneQuoteData 0,
      dayGroup (ivData oneQuoteData (some (90, 110)) 0) d ≠ []) ∧
    (∀ dq : ℚ, dayGroup (ivData oneQuoteData (some (90, 110)) 0)
      (nearestDay (allDaysSorted oneQuoteData 0) dq) ≠ []) := by
  refine ⟨by decide, by decide, ?_⟩
  exact C8_day_group_nonempty oneQuoteData (some (90, 110)) 0 (by decide) (by decide)

/-- The implied vol of the last row with strike `s` that survives the
filters, i.e. the value Python's repeated `iv_data[(days, strike)] = iv`
overwriting leaves for that strike (helper for C10). -/
def lastValidIV (rng : Option (ℚ × ℚ)) (rows : List OptRow) (s : ℚ) : Option ℚ :=
  ((rows.filter (fun row => rowValid rng row && decide (row.strike = s))).getLast?).map
    (fun row => row.impliedVol)

theorem lookupIV_dictInsert (m : List ((ℤ × ℚ) × ℚ)) (k : ℤ × ℚ) (v : ℚ)
    (k' : ℤ × ℚ) :
    lookupIV (dictInsert m k v) k' = if k' = k then some v else lookupIV m k' := by
  induction m with
  | nil =>
    rcases em (k' = k) with h | h
    · rw [if_pos h]
      subst h
      simp [dictInsert, lookupIV, List.find?]
    · rw [if_neg h]
      have : ¬(k = k') := fun he => h he.symm
      simp [dictInsert, lookupIV, List.find?, this]
  | cons kv rest ih =>
    unfold dictInsert
    rcases em (kv.1 = k) with h1 | h1
    · rw [if_pos h1]
      rcases em (k' = k) with h2 | h2
      · rw [if_pos h2]
        subst h2
        simp [lookupIV, List.find?]
      · rw [if_neg h2]
        have hkk : ¬(k = k') := fun he => h2 he.symm
        have hkv : ¬(kv.1 = k') := h1 ▸ hkk
        unfold lookupIV
        rw [List.find?_cons_of_neg _ (by simpa using hkk),
          List.find?_cons_of_neg _ (by simpa using hkv)]
    · rw [if_neg h1]
      rcases em (kv.1 = k') with h2 | h2
      · have hne : ¬(k' = k) := fun he => h1 (h2.trans he)
        rw [if_neg hne]
        unfold lookupIV
        rw [List.find?_cons_of_pos _ (by simpa using h2),
          List.find?_cons_of_pos _ (by simpa using h2)]
      · unfold lookupIV
        rw [List.find?_cons_of_neg _ (by simpa using h2),
          List.find?_cons_of_neg _ (by simpa using h2)]
        exact ih

theorem lastValidIV_cons (rng : Option (ℚ × ℚ)) (row : OptRow)
    (rest : List OptRow) (s : ℚ) :
    lastValidIV rng (row :: rest) s =
      (lastValidIV rng rest s).elim
        (if rowValid rng row && decide (row.strike = s) then some row.impliedVol
          else none) some := by
  unfold lastValidIV
  rw [List.filter_cons]
  rcases h : (rowValid rng row && decide (row.strike = s)) with _ | _
  · rw [if_neg Bool.false_ne_true]
    rcases hf : (rest.filter fun row => rowValid rng row && decide (row.strike = s))
      with _ | ⟨a, l⟩
    · rfl
    · rw [List.getLast?_eq_getLast _ (List.cons_ne_nil a l)]
      rfl
  · rw [if_pos rfl]
    rcases hf : (rest.filter fun row => rowValid rng row && decide (row.strike = s))
      with _ | ⟨a, l⟩
    · rfl
    · rw [List.getLast?_cons_cons, List.getLast?_eq_getLast _ (List.cons_ne_nil a l)]
      rfl

theorem lookupIV_insertRow (rng : Option (ℚ × ℚ)) (days : ℤ)
    (m : List ((ℤ × ℚ) × ℚ)) (row : OptRow) (s : ℚ) :
    lookupIV (insertRow rng days m row) (days, s) =
      if rowValid rng row && decide (row.strike = s) then some row.impliedVol
      else lookupIV m (days, s) := by
  unfold insertRow
  rcases hv : rowValid rng row with _ | _
  · rw [if_neg Bool.false_ne_true, if_neg (by simp)]
  · rw [if_pos rfl, lookupIV_dictInsert]
    rcases em (row.strike = s) with hs | hs
    · subst hs
      rw [if_pos rfl, if_pos (by simp)]
    · rw [if_neg (by simp [Prod.ext_iff]; exact fun h => hs h.symm),
        if_neg (by simp [hs])]

theorem lookup_foldl_insertRow (rng : Option (ℚ × ℚ)) (days : ℤ)
    (rows : List OptRow) (m : List ((ℤ × ℚ) × ℚ)) (s : ℚ) :
    lookupIV (rows.foldl (insertRow rng days) m) (days, s) =
      (lastValidIV rng rows s).elim (lookupIV m (days, s)) some := by
  induction rows generalizing m with
  | nil => rfl
  | cons row rest ih =>
    rw [List.foldl_cons, ih (insertRow rng days m row), lookupIV_insertRow,
      lastValidIV_cons]
    rcases hrest : lastValidIV rng rest s with _ | v
    · rcases hc : (rowValid rng row && decide (row.strike = s)) with _ | _
      · rw [if_neg Bool.false_ne_true]
        rfl
      · rw [if_pos rfl]
        rfl
    · rfl
theorem lookup_foldl_insertRow_ne (rng : Option (ℚ × ℚ)) (days d' : ℤ)
    (h : d' ≠ days) (rows : List OptRow) (m : List ((ℤ × ℚ) × ℚ)) (s : ℚ) :
    lookupIV (rows.foldl (insertRow rng days) m) (d', s) = lookupIV m (d', s) := by
  induction rows generalizing m with
  | nil => rfl
  | cons row rest ih =>
    rw [List.foldl_cons, ih]
    unfold insertRow
    rcases hv : rowValid rng row with _ | _
    · rw [if_neg Bool.false_ne_true]
    · rw [if_pos rfl, lookupIV_dictInsert, if_neg (by simp [h])]

theorem lookup_insertExp_ne (rng : Option (ℚ × ℚ)) (today : ℤ)
    (m : List ((ℤ × ℚ) × ℚ)) (e : ExpEntry) (d' : ℤ) (s : ℚ)
    (h : d' ≠ e.expiry - today) :
    lookupIV (insertExp rng today m e) (d', s) = lookupIV m (d', s) := by
  unfold insertExp
  rcases em (e.expiry - today ≤ 0) with h0 | h0
  · rw [if_pos h0]
  · rw [if_neg h0]
    exact lookup_foldl_insertRow_ne rng _ d' h _ m s

theorem lookup_foldl_insertExp_ne (rng : Option (ℚ × ℚ)) (today : ℤ)
    (post : List ExpEntry) (m : List ((ℤ × ℚ) × ℚ)) (d' : ℤ) (s : ℚ)
    (h : ∀ e ∈ post, d' ≠ e.expiry - today) :
    lookupIV (post.foldl (insertExp rng today) m) (d', s) = lookupIV m (d', s) := by
  induction post generalizing m with
  | nil => rfl
  | cons e rest ih =>
    rw [List.foldl_cons, ih _ fun e' he' => h e' (List.mem_cons_of_mem e he')]
    exact lookup_insertExp_ne rng today m e d' s (h e (List.mem_cons_self e rest))

/-- C10: put quote wins key collisions.  If an expiration (pre ++ e :: post,
no later entry sharing its day count) has a surviving call quote and a
surviving put quote at the same strike, the lookup table keeps the put's
implied vol — calls are inserted first, and the later put insertion
overwrites — and every surface node resolved through that key gets the
put value. -/
theorem C10_put_quote_wins (pre post : List ExpEntry) (e : ExpEntry)
    (rng : Option (ℚ × ℚ)) (today : ℤ) (s ivp ivc : ℚ)
    (hd : 0 < e.expiry - today)
    (hpost : ∀ e' ∈ post, e'.expiry - today ≠ e.expiry - today)
    (hcall : lastValidIV rng e.calls s = some ivc)
    (hput : lastValidIV rng e.puts s = some ivp) :
    lookupIV (ivData (pre ++ e :: post) rng today) (e.expiry - today, s) = some ivp ∧
    ∀ current dq sq : ℚ,
      nearestDay (allDaysSorted (pre ++ e :: post) today) dq = e.expiry - today →
      nearestTo (allStrikesSorted (pre ++ e :: post) rng today) sq = s →
      nodeValue (ivData (pre ++ e :: post) rng today)
        (allDaysSorted (pre ++ e :: post) today)
        (allStrikesSorted (pre ++ e :: post) rng today) current dq sq = ivp := by
  have hmain : lookupIV (ivData (pre ++ e :: post) rng today)
      (e.expiry - today, s) = some ivp := by
    unfold ivData
    rw [List.foldl_append, List.foldl_cons]
    rw [lookup_foldl_insertExp_ne rng today post _ _ s
      fun e' he' => (hpost e' he').symm]
    unfold insertExp
    rw [if_neg (not_le.mpr hd), lookup_foldl_insertRow]
    have hcat : lastValidIV rng (e.calls ++ e.puts) s = some ivp := by
      unfold lastValidIV at hput ⊢
      rw [List.filter_append, List.getLast?_append]
      rcases hfp : (e.puts.filter fun row =>
          rowValid rng row && decide (row.strike = s)).getLast? with _ | row
      · rw [hfp] at hput
        simp at hput
      · rw [hfp] at hput
        simpa using hput
    rw [hcat]
    rfl
  refine ⟨hmain, fun current dq sq hnd hns => ?_⟩
  unfold nodeValue
  rw [hnd, hns, hmain]

/-- Concrete expiration for the C10 witness: call and put quotes at the same
strike 100 with different implied vols. -/
def putWinsEntry : ExpEntry := ⟨10, [⟨100, 3⟩], [⟨100, 2⟩]⟩

/-- A later expiration with a different day count, sharing strike 100. -/
def putWinsPost : List ExpEntry := [⟨20, [⟨100, 1⟩], []⟩]

/-- C10 witness: with the call quote (iv 3) inserted before the put quote
(iv 2) at key (10, 100), the lookup table keeps the put's value 2. -/
theorem C10_put_quote_wins_witness :
    (0 : ℤ) < putWinsEntry.expiry - 0 ∧
    (∀ e' ∈ putWinsPost, e'.expiry - 0 ≠ putWinsEntry.expiry - 0) ∧
    lastValidIV none putWinsEntry.calls 100 = some 3 ∧
    lastValidIV none putWinsEntry.puts 100 = some 2 ∧
    lookupIV (ivData ([] ++ putWinsEntry :: putWinsPost) none 0)
      (putWinsEntry.expiry - 0, 100) = some 2 := by
  refine ⟨by decide, by decide, by decide, by decide, ?_⟩
  exact (C10_put_quote_wins [] putWinsPost putWinsEntry none 0 100 2 3
    (by decide) (by decide) (by decide) (by decide)).1

theorem exp_mul_normPdf_eq (a t : ℝ) :
    Real.exp (a * t) * normPdf t = Real.exp (a ^ 2 / 2) * normPdf (t - a) := by
  unfold normPdf
  rw [show Real.exp (a * t) * (Real.exp (-(t ^ 2) / 2) / Real.sqrt (2 * Real.pi)) =
      Real.exp (a * t) * Real.exp (-(t ^ 2) / 2) / Real.sqrt (2 * Real.pi) from by
    ring]
  rw [← Real.exp_add,
    show a * t + -(t ^ 2) / 2 = a ^ 2 / 2 + -((t - a) ^ 2) / 2 from by ring,
    Real.exp_add]
  ring

theorem integrable_exp_mul_normPdf (a : ℝ) :
    Integrable (fun t => Real.exp (a * t) * normPdf t) := by
  have h : Integrable (fun t => Real.exp (a ^ 2 / 2) * normPdf (t - a)) :=
    (integrable_normPdf.comp_sub_right a).const_mul _
  exact h.congr (Filter.Eventually.of_forall fun t => (exp_mul_normPdf_eq a t).symm)

theorem setIntegral_normPdf_sub (a c : ℝ) :
    ∫ t in Iic c, normPdf (t - a) = normCdf (c - a) := by
  have h1 : (∫ t in Iic c, normPdf (t - a)) =
      ∫ t, (Iic (c - a)).indicator normPdf (t - a) := by
    rw [← integral_indicator measurableSet_Iic]
    congr 1
    funext t
    rcases em (t ≤ c) with ht | ht
    · rw [indicator_of_mem (mem_Iic.mpr ht),
        indicator_of_mem (mem_Iic.mpr (by linarith))]
    · rw [indicator_of_not_mem (fun hm => ht (mem_Iic.mp hm)),
        indicator_of_not_mem (fun hm => ht (by linarith [mem_Iic.mp hm]))]
  rw [h1, integral_sub_right_eq_self ((Iic (c - a)).indicator normPdf) a,
    integral_indicator measurableSet_Iic]
  rfl

theorem tilt_integral (a c : ℝ) :
    ∫ t in Iic c, Real.exp (a * t) * normPdf t =
      Real.exp (a ^ 2 / 2) * normCdf (c - a) := by
  calc ∫ t in Iic c, Real.exp (a * t) * normPdf t
      = ∫ t in Iic c, Real.exp (a ^ 2 / 2) * normPdf (t - a) :=
        setIntegral_congr_fun measurableSet_Iic fun t _ => exp_mul_normPdf_eq a t
    _ = Real.exp (a ^ 2 / 2) * ∫ t in Iic c, normPdf (t - a) :=
        integral_mul_left _ _
    _ = Real.exp (a ^ 2 / 2) * normCdf (c - a) := by
        rw [setIntegral_normPdf_sub]

theorem tilt_lt (a c : ℝ) (ha : 0 < a) :
    Real.exp (a ^ 2 / 2) * normCdf (c - a) < Real.exp (a * c) * normCdf c := by
  rw [← tilt_integral]
  have hrhs : Real.exp (a * c) * normCdf c =
      ∫ t in Iic c, Real.exp (a * c) * normPdf t := by
    unfold normCdf
    rw [integral_mul_left]
  rw [hrhs]
  have hint1 : IntegrableOn (fun t => Real.exp (a * t) * normPdf t) (Iic c) volume :=
    (integrable_exp_mul_normPdf a).integrableOn
  have hint2 : IntegrableOn (fun t => Real.exp (a * c) * normPdf t) (Iic c) volume :=
    (integrable_normPdf.const_mul _).integrableOn
  have hii : IntegrableOn
      (fun t => Real.exp (a * c) * normPdf t - Real.exp (a * t) * normPdf t)
      (Iic c) volume := by
    simpa using hint2.sub hint1
  have hdiff : 0 < ∫ t in Iic c,
      (Real.exp (a * c) * normPdf t - Real.exp (a * t) * normPdf t) := by
    have hnn : ∀ᵐ t ∂volume.restrict (Iic c),
        0 ≤ Real.exp (a * c) * normPdf t - Real.exp (a * t) * normPdf t := by
      rw [ae_restrict_iff' measurableSet_Iic]
      refine Filter.Eventually.of_forall fun t ht => ?_
      have h1 : Real.exp (a * t) ≤ Real.exp (a * c) :=
        Real.exp_le_exp.mpr (mul_le_mul_of_nonneg_left (mem_Iic.mp ht) ha.le)
      have h2 := (normPdf_pos t).le
      nlinarith
    rw [setIntegral_pos_iff_support_of_nonneg_ae hnn hii]
    have hsub : Iio c ⊆
        Function.support (fun t =>
          Real.exp (a * c) * normPdf t - Real.exp (a * t) * normPdf t) ∩ Iic c := by
      intro t ht
      have htc : t < c := ht
      refine ⟨?_, le_of_lt htc⟩
      have h1 : Real.exp (a * t) < Real.exp (a * c) :=
        Real.exp_lt_exp.mpr (mul_lt_mul_of_pos_left htc ha)
      have h2 := normPdf_pos t
      have hp : 0 < Real.exp (a * c) * normPdf t - Real.exp (a * t) * normPdf t := by
        nlinarith
      exact Function.mem_support.mpr hp.ne'
    have hio : (0 : ENNReal) < volume (Iio c) := by
      rw [Real.volume_Iio]
      exact ENNReal.zero_lt_top
    exact lt_of_lt_of_le hio (measure_mono hsub)
  have hsub := integral_sub hint2 hint1
  rw [hsub] at hdiff
  linarith

/-- European put prices are strictly positive for positive spot, strike,
time and volatility. -/
theorem black_scholes_put_pos (S K T r σ : ℝ) (hS : 0 < S) (hK : 0 < K)
    (hT : 0 < T) (hσ : 0 < σ) :
    ∃ pv, black_scholes_price S K T r σ putKind = some pv ∧ 0 < pv := by
  have hnle : ¬T ≤ 0 := not_le.mpr hT
  refine ⟨K * Real.exp (-r * T) * normCdf (-bs_d2 S K T r σ) -
      S * normCdf (-bs_d1 S K T r σ), ?_, ?_⟩
  · simp [black_scholes_price, hnle, callKind, putKind]
  · set a := σ * Real.sqrt T with ha
    have ha0 : 0 < a := mul_pos hσ (Real.sqrt_pos.mpr hT)
    have hd1 : bs_d1 S K T r σ = bs_d2 S K T r σ + a := by
      unfold bs_d2
      ring
    have ha2 : a ^ 2 = σ ^ 2 * T := by
      rw [ha, mul_pow, Real.sq_sqrt hT.le]
    have had1 : a * bs_d1 S K T r σ = Real.log (S / K) + (r + 0.5 * σ ^ 2) * T := by
      unfold bs_d1
      rw [ha]
      field_simp
    have key : a * bs_d2 S K T r σ + a ^ 2 / 2 = Real.log (S / K) + r * T := by
      have h1 : a * bs_d1 S K T r σ = a * bs_d2 S K T r σ + a ^ 2 := by
        rw [hd1]
        ring
      nlinarith [had1, ha2, h1]
    have hident : Real.exp (a * bs_d2 S K T r σ + a ^ 2 / 2) =
        S / K * Real.exp (r * T) := by
      rw [key, Real.exp_add, Real.exp_log (div_pos hS hK)]
    have hlt := tilt_lt a (-bs_d2 S K T r σ) ha0
    have hneg : -bs_d2 S K T r σ - a = -bs_d1 S K T r σ := by
      rw [hd1]
      ring
    rw [hneg] at hlt
    have h2 := mul_lt_mul_of_pos_left hlt (Real.exp_pos (a * bs_d2 S K T r σ))
    rw [show Real.exp (a * bs_d2 S K T r σ) *
        (Real.exp (a ^ 2 / 2) * normCdf (-bs_d1 S K T r σ)) =
        Real.exp (a * bs_d2 S K T r σ) * Real.exp (a ^ 2 / 2) *
          normCdf (-bs_d1 S K T r σ) from by ring,
      ← Real.exp_add] at h2
    rw [show Real.exp (a * bs_d2 S K T r σ) *
        (Real.exp (a * -bs_d2 S K T r σ) * normCdf (-bs_d2 S K T r σ)) =
        Real.exp (a * bs_d2 S K T r σ) * Real.exp (a * -bs_d2 S K T r σ) *
          normCdf (-bs_d2 S K T r σ) from by ring,
      ← Real.exp_add,
      show a * bs_d2 S K T r σ + a * -bs_d2 S K T r σ = 0 from by ring,
      Real.exp_zero, one_mul] at h2
    rw [hident] at h2
    have hexp : Real.exp (-r * T) * Real.exp (r * T) = 1 := by
      rw [← Real.exp_add, show -r * T + r * T = 0 from by ring, Real.exp_zero]
    have h3 := mul_lt_mul_of_pos_left h2
      (mul_pos hK (Real.exp_pos (-r * T)))
    rw [show K * Real.exp (-r * T) * (S / K * Real.exp (r * T) *
        normCdf (-bs_d1 S K T r σ)) =
        S * (Real.exp (-r * T) * Real.exp (r * T)) *
          normCdf (-bs_d1 S K T r σ) * (K / K) from by ring,
      hexp, div_self hK.ne', mul_one, mul_one] at h3
    linarith

/-- Modelled from the spec: the binomial pricing module
(`src.models.binomial_pricing`, imported by `src/ui/options_helpers.py` and
`src/ui/app.py`) is not among the provided sources, so the Cox–Ross–
Rubinstein lattice of spec §4.2 is modelled from the spec's words.  Terminal
payoff: `max(0, S_i - strike)` for CALL, `max(0, strike - S_i)` for PUT. -/
noncomputable def crrPayoff (kind : String) (K s : ℝ) : ℝ :=
  if kind = callKind then max 0 (s - K) else max 0 (K - s)

/-- Modelled from the spec: up factor `u = e^(vol·√dt)` with `dt = T/steps`
(spec §4.2 step 1). -/
noncomputable def crrU (σ T : ℝ) (steps : ℕ) : ℝ :=
  Real.exp (σ * Real.sqrt (T / steps))

/-- Modelled from the spec: down factor `d = 1/u` (spec §4.2 step 1). -/
noncomputable def crrD (σ T : ℝ) (steps : ℕ) : ℝ :=
  1 / crrU σ T steps

/-- Modelled from the spec: risk-neutral up-probability
`p = (e^(rate·dt) - d) / (u - d)` (spec §4.2 step 1). -/
noncomputable def crrP (r σ T : ℝ) (steps : ℕ) : ℝ :=
  (Real.exp (r * (T / steps)) - crrD σ T steps) / (crrU σ T steps - crrD σ T steps)

/-- Modelled from the spec: backward-induction layers of spec §4.2 steps 2–3
with early exercise.  `crrAmerLayer pay disc p steps k i` is the value of
node `i` at time step `steps - k`; layer `0` is the terminal payoff layer and
each earlier node takes `max(continuation, intrinsic)`. -/
noncomputable def crrAmerLayer (pay : ℕ → ℕ → ℝ) (disc p : ℝ) (steps : ℕ) :
    ℕ → ℕ → ℝ
  | 0, i => pay steps i
  | k + 1, i =>
    max (disc * (p * crrAmerLayer pay disc p steps k (i + 1) +
        (1 - p) * crrAmerLayer pay disc p steps k i))
      (pay (steps - (k + 1)) i)

/-- Modelled from the spec: the same backward induction without the
intrinsic `max` — spec §4.2 step 3 notes the `max` with intrinsic is exactly
what distinguishes American from European valuation. -/
noncomputable def crrEuroLayer (pay : ℕ → ℕ → ℝ) (disc p : ℝ) (steps : ℕ) :
    ℕ → ℕ → ℝ
  | 0, i => pay steps i
  | k + 1, i =>
    disc * (p * crrEuroLayer pay disc p steps k (i + 1) +
      (1 - p) * crrEuroLayer pay disc p steps k i)

/-- Modelled from the spec: `american_option_binomial(S, K, r, T, sigma, N,
option_type)` of the missing `src.models.binomial_pricing`, per spec §4.2:
spot at node `(step, i)` is `S·u^i·d^(step-i)`, continuation is
`e^(-rate·dt)·(p·V_{i+1} + (1-p)·V_i)`, each node takes
`max(continuation, intrinsic)`, and the root value at step 0 is returned.
`none` models `InvalidStepCount` (steps < 1), `InvalidOptionKind`, and
`DegenerateLatticeError` (`u == d`). -/
noncomputable def american_option_binomial (S K r T σ : ℝ) (steps : ℕ)
    (option_type : String) : Option ℝ :=
  if steps < 1 then none
  else if option_type ≠ callKind ∧ option_type ≠ putKind then none
  else if crrU σ T steps = crrD σ T steps then none
  else some (crrAmerLayer
    (fun step i => crrPayoff option_type K
      (S * crrU σ T steps ^ i * crrD σ T steps ^ (step - i)))
    (Real.exp (-(r * (T / steps)))) (crrP r σ T steps) steps steps 0)

/-- Modelled from the spec: the European variant of the same lattice
(backward induction without the early-exercise `max`), used to express the
early-exercise dominance property of spec §4.2/§8. -/
noncomputable def european_option_binomial (S K r T σ : ℝ) (steps : ℕ)
    (option_type : String) : Option ℝ :=
  if steps < 1 then none
  else if option_type ≠ callKind ∧ option_type ≠ putKind then none
  else if crrU σ T steps = crrD σ T steps then none
  else some (crrEuroLayer
    (fun step i => crrPayoff option_type K
      (S * crrU σ T steps ^ i * crrD σ T steps ^ (step - i)))
    (Real.exp (-(r * (T / steps)))) (crrP r σ T steps) steps steps 0)

theorem crrEuroLayer_le_crrAmerLayer (pay : ℕ → ℕ → ℝ) (disc p : ℝ)
    (steps : ℕ) (hd : 0 ≤ disc) (hp0 : 0 ≤ p) (hp1 : p ≤ 1) :
    ∀ k i, crrEuroLayer pay disc p steps k i ≤ crrAmerLayer pay disc p steps k i := by
  intro k
  induction k with
  | zero => intro i; exact le_refl _
  | succ k ih =>
    intro i
    rw [crrEuroLayer, crrAmerLayer]
    refine le_trans ?_ (le_max_left _ _)
    have h1 : p * crrEuroLayer pay disc p steps k (i + 1) ≤
        p * crrAmerLayer pay disc p steps k (i + 1) :=
      mul_le_mul_of_nonneg_left (ih (i + 1)) hp0
    have h2 : (1 - p) * crrEuroLayer pay disc p steps k i ≤
        (1 - p) * crrAmerLayer pay disc p steps k i :=
      mul_le_mul_of_nonneg_left (ih i) (by linarith)
    exact mul_le_mul_of_nonneg_left (by linarith) hd

theorem crrU_eval : crrU 0.2 1 1 = Real.exp 0.2 := by
  unfold crrU
  norm_num [Real.sqrt_one]

theorem crrD_eval : crrD 0.2 1 1 = 1 / Real.exp 0.2 := by
  unfold crrD
  rw [crrU_eval]

theorem crr_u_ne_d : crrU 0.2 1 1 ≠ crrD 0.2 1 1 := by
  rw [crrU_eval, crrD_eval]
  intro h
  have hpos : (0 : ℝ) < Real.exp 0.2 := Real.exp_pos _
  have h2 : Real.exp 0.2 * Real.exp 0.2 = 1 := by
    field_simp at h
    linarith [h]
  nlinarith [Real.add_one_le_exp (0.2 : ℝ)]

theorem exp_fifth_lt_two : Real.exp 0.2 < 2 := by
  have hl : (0.2 : ℝ) < Real.log 2 := by
    have := Real.log_two_gt_d9
    linarith
  calc Real.exp 0.2 < Real.exp (Real.log 2) := Real.exp_lt_exp.mpr hl
    _ = 2 := Real.exp_log (by norm_num)

/-- C9 counterexample: at `spot = 100, strike = 50, rate = 1, T = 1,
vol = 0.2, steps = 1` every lattice payoff of the PUT is zero (the strike
lies below even the down-move spot `100·e^(-0.2) > 50`), so the American
binomial price is exactly 0, while the analytic European put price is
strictly positive — the claimed domination fails. -/
theorem C9_lattice_counterexample :
    american_option_binomial 100 50 1 1 0.2 1 putKind = some 0 ∧
    ∃ pv, black_scholes_price 100 50 1 1 0.2 putKind = some pv ∧ 0 < pv := by
  refine ⟨?_, black_scholes_put_pos 100 50 1 1 0.2 (by norm_num) (by norm_num)
    (by norm_num) (by norm_num)⟩
  unfold american_option_binomial
  rw [if_neg (by norm_num), if_neg (by simp [putKind, callKind]),
    if_neg crr_u_ne_d]
  refine congrArg some ?_
  have hexp1 : (1 : ℝ) ≤ Real.exp 0.2 := Real.one_le_exp (by norm_num)
  have hexp2 := exp_fifth_lt_two
  have hpos : (0 : ℝ) < Real.exp 0.2 := Real.exp_pos _
  have hput : ¬putKind = callKind := by decide
  have hpay1 : crrPayoff putKind 50
      (100 * crrU 0.2 1 1 ^ 1 * crrD 0.2 1 1 ^ (1 - 1)) = 0 := by
    unfold crrPayoff
    rw [if_neg hput, crrU_eval, crrD_eval]
    norm_num
    have he : Real.exp (1 / 5 : ℝ) = Real.exp 0.2 := by norm_num
    rw [he]
    nlinarith
  have hpay0 : crrPayoff putKind 50
      (100 * crrU 0.2 1 1 ^ 0 * crrD 0.2 1 1 ^ (1 - 0)) = 0 := by
    unfold crrPayoff
    rw [if_neg hput, crrU_eval, crrD_eval]
    norm_num
    have he : Real.exp (1 / 5 : ℝ) = Real.exp 0.2 := by norm_num
    rw [he]
    have h100 : 50 * Real.exp 0.2 ≤ 100 := by nlinarith
    calc (50 : ℝ) = 50 * Real.exp 0.2 * (Real.exp 0.2)⁻¹ := by
          rw [mul_assoc, mul_inv_cancel₀ hpos.ne', mul_one]
      _ ≤ 100 * (Real.exp 0.2)⁻¹ :=
          mul_le_mul_of_nonneg_right h100 (inv_nonneg.mpr hpos.le)
  have hpayroot : crrPayoff putKind 50
      (100 * crrU 0.2 1 1 ^ 0 * crrD 0.2 1 1 ^ (0 - 0)) = 0 := by
    unfold crrPayoff
    rw [if_neg hput]
    norm_num
  simp only [crrAmerLayer]
  rw [hpay1, hpay0, hpayroot]
  simp

/-- C9 (amended): with a valid step count, a non-degenerate lattice
(`u ≠ d`) and a risk-neutral probability `p ∈ [0, 1]`, the American binomial
PUT value dominates the European binomial value on the same lattice — the
early-exercise value is non-negative at lattice level.  Domination of the
analytic (Black–Scholes) European price, as originally claimed, fails for
small step counts (see the counterexample at steps = 1). -/
theorem C9_early_exercise_dominance (S K r T σ : ℝ) (steps : ℕ)
    (hsteps : ¬steps < 1) (hne : crrU σ T steps ≠ crrD σ T steps)
    (hp0 : 0 ≤ crrP r σ T steps) (hp1 : crrP r σ T steps ≤ 1) :
    ∃ ep ap, european_option_binomial S K r T σ steps putKind = some ep ∧
      american_option_binomial S K r T σ steps putKind = some ap ∧ ep ≤ ap := by
  refine ⟨crrEuroLayer
      (fun step i => crrPayoff putKind K
        (S * crrU σ T steps ^ i * crrD σ T steps ^ (step - i)))
      (Real.exp (-(r * (T / steps)))) (crrP r σ T steps) steps steps 0,
    crrAmerLayer
      (fun step i => crrPayoff putKind K
        (S * crrU σ T steps ^ i * crrD σ T steps ^ (step - i)))
      (Real.exp (-(r * (T / steps)))) (crrP r σ T steps) steps steps 0,
    ?_, ?_, ?_⟩
  · unfold european_option_binomial
    rw [if_neg hsteps, if_neg (by simp [putKind, callKind]), if_neg hne]
  · unfold american_option_binomial
    rw [if_neg hsteps, if_neg (by simp [putKind, callKind]), if_neg hne]
  · exact crrEuroLayer_le_crrAmerLayer _ _ _ _ (Real.exp_pos _).le hp0 hp1 steps 0

/-- C9 witness: early-exercise dominance at
`spot = strike = 100, rate = 1/100, T = 1, vol = 0.2, steps = 1`. -/
theorem C9_early_exercise_dominance_witness :
    ¬(1 : ℕ) < 1 ∧ crrU 0.2 1 1 ≠ crrD 0.2 1 1 ∧
    0 ≤ crrP (1 / 100) 0.2 1 1 ∧ crrP (1 / 100) 0.2 1 1 ≤ 1 ∧
    (∃ ep ap, european_option_binomial 100 100 (1 / 100) 1 0.2 1 putKind = some ep ∧
      american_option_binomial 100 100 (1 / 100) 1 0.2 1 putKind = some ap ∧
      ep ≤ ap) := by
  have hexp1 : (1 : ℝ) ≤ Real.exp 0.2 := Real.one_le_exp (by norm_num)
  have hstrict : (1 : ℝ) < Real.exp 0.2 := by
    nlinarith [Real.add_one_le_exp (0.2 : ℝ)]
  have hpos : (0 : ℝ) < Real.exp 0.2 := Real.exp_pos _
  have hr1 : (1 : ℝ) ≤ Real.exp (1 / 100) := Real.one_le_exp (by norm_num)
  have hr2 : Real.exp (1 / 100 : ℝ) ≤ Real.exp 0.2 := Real.exp_le_exp.mpr (by norm_num)
  have hP : crrP (1 / 100) 0.2 1 1 =
      (Real.exp (1 / 100) - 1 / Real.exp 0.2) / (Real.exp 0.2 - 1 / Real.exp 0.2) := by
    unfold crrP
    rw [crrU_eval, crrD_eval]
    norm_num
  have hdltu : 1 / Real.exp 0.2 < Real.exp 0.2 := by
    have hd1 : 1 / Real.exp 0.2 ≤ 1 := by
      rw [div_le_one hpos]
      exact hexp1
    linarith
  have hp0 : 0 ≤ crrP (1 / 100) 0.2 1 1 := by
    rw [hP]
    refine div_nonneg ?_ (by linarith)
    have hd1 : 1 / Real.exp 0.2 ≤ 1 := by
      rw [div_le_one hpos]
      exact hexp1
    linarith
  have hp1 : crrP (1 / 100) 0.2 1 1 ≤ 1 := by
    rw [hP, div_le_one (by linarith)]
    linarith
  refine ⟨by norm_num, crr_u_ne_d, hp0, hp1, ?_⟩
  exact C9_early_exercise_dominance 100 100 (1 / 100) 1 0.2 1 (by norm_num)
    crr_u_ne_d hp0 hp1
